import Mathlib

/-
  Shallow embedding of the blackjack core of `benrussell80/casino-games`
  (src/blackjack/mod.rs, src/model.rs, src/lib.rs), together with theorems
  settling the specification claims about it.

  Modelling conventions:
  * Rust `u32` quantities (`player_bet`, `player_bank`, `total_bet`) are
    `Nat`; unchecked (wrapping in release builds) operations are modelled
    with an explicit `% 2^32` (`wadd`, `wsub`, products), while the
    `saturating_add`/`saturating_sub` calls are modelled by `satAdd` and
    truncated `Nat` subtraction.
  * Hand point totals are `u8` in the source; every hand constructible
    during play keeps them far below 256, so they are modelled as plain
    `Nat`.
  * The `fastrand::Rng` is abstracted as an infinite stream `Nat → Nat` of
    raw random values plus a consumption position; the external crate's
    `shuffle` (spec section 4.1: a uniform random permutation,
    Fisher-Yates or equivalent) is modelled by a selection shuffle driven
    by that stream.
-/

set_option maxRecDepth 8192

namespace BJ

/-- Mirrors `CardValue` (mod.rs, `#[repr(u8)]` with `Ace = 1`). -/
inductive CardValue where
  | Ace | Two | Three | Four | Five | Six | Seven | Eight | Nine
  | Ten | Jack | Queen | King
deriving DecidableEq, Repr

/-- Mirrors `CardSuit` (mod.rs). -/
inductive CardSuit where
  | Club | Diamond | Heart | Spade
deriving DecidableEq, Repr

/-- Mirrors `struct Card` (mod.rs). -/
structure Card where
  value : CardValue
  suit : CardSuit
deriving DecidableEq, Repr

instance : Inhabited Card := ⟨⟨CardValue.Ace, CardSuit.Club⟩⟩

/-- Mirrors `struct Hand` (mod.rs): an ordered list of cards. -/
structure Hand where
  cards : List Card
deriving DecidableEq, Repr

instance : Inhabited Hand := ⟨⟨[]⟩⟩

/-- Mirrors `enum HandResult` (mod.rs). -/
inductive HandResult where
  | Lose | Win | Push | BlackJack
deriving DecidableEq, Repr

/-- The `u8` discriminant of a `CardValue` as counted by the low-total pass
of `Hand::points`: Ace contributes 1, Ten/Jack/Queen/King contribute 10,
every other rank its face value (`other as u8`). -/
def lowValue : CardValue → Nat
  | .Ace => 1
  | .Two => 2
  | .Three => 3
  | .Four => 4
  | .Five => 5
  | .Six => 6
  | .Seven => 7
  | .Eight => 8
  | .Nine => 9
  | .Ten => 10
  | .Jack => 10
  | .Queen => 10
  | .King => 10

/-- Whether a value is in the Ten/Jack/Queen/King group of
`CardValue::equal_to`. -/
def isTenGroup : CardValue → Bool
  | .Ten | .Jack | .Queen | .King => true
  | _ => false

/-- Mirrors `CardValue::equal_to`: exact equality, or both values in the
Ten/Jack/Queen/King group. -/
def equal_to (a b : CardValue) : Bool :=
  if a = b then true else isTenGroup a && isTenGroup b

/-- The first pass of `Hand::points`: the sum of the low contributions of
all cards (every Ace counted as 1). -/
def lowSum (cs : List Card) : Nat :=
  (cs.map (fun c => lowValue c.value)).sum

/-- The second pass of `Hand::points`: for each Ace in the card list (in
order), the accumulated list of totals is extended by a copy of itself
shifted up by 10 (`for prev_pt in pts.clone() { pts.push(prev_pt + 10) }`). -/
def spreadAces : List Card → List Nat → List Nat
  | [], pts => pts
  | c :: rest, pts =>
      spreadAces rest (if c.value = CardValue.Ace then pts ++ pts.map (· + 10) else pts)

/-- Mirrors `Hand::points`: the list of all obtainable totals, starting
from the all-Aces-low sum and duplicating-with-shift once per Ace. -/
def points (h : Hand) : List Nat :=
  spreadAces h.cards [lowSum h.cards]

/-- Mirrors `Hand::dealer_must_hit`: false exactly when some total lies in
[17, 21]. -/
def dealer_must_hit (h : Hand) : Bool :=
  !((points h).any (fun pt => decide (17 ≤ pt) && decide (pt ≤ 21)))

/-- Mirrors `Hand::is_bust`: every total exceeds 21. -/
def is_bust (h : Hand) : Bool :=
  (points h).all (fun pt => decide (21 < pt))

/-- Mirrors `Hand::is_blackjack`: exactly two cards and some total equals
21. -/
def is_blackjack (h : Hand) : Bool :=
  h.cards.length == 2 && (points h).any (fun pt => pt == 21)

/-- Mirrors `Hand::can_split`: exactly two cards whose values are
`equal_to` each other. -/
def can_split (h : Hand) : Bool :=
  h.cards.length == 2 &&
    equal_to (h.cards.getD 0 default).value (h.cards.getD 1 default).value

/-- Mirrors `Hand::can_double_down`: exactly two cards and some total equal
to 10 or 11. -/
def can_double_down (h : Hand) : Bool :=
  h.cards.length == 2 && (points h).any (fun pt => pt == 10 || pt == 11)

/-- Mirrors `Hand::dealer_showing_ace`: the second card (`cards[1]`) is an
Ace.  The source indexes unconditionally; at its only call site the dealer
hand has exactly two cards. -/
def dealer_showing_ace (h : Hand) : Bool :=
  (h.cards.getD 1 default).value = CardValue.Ace

/-- The best total not exceeding 21, as computed inside
`Hand::showdown_result`: `points().into_iter().filter(|pt| *pt <= 21).max()`. -/
def bestU21 (h : Hand) : Option Nat :=
  ((points h).filter (fun pt => decide (pt ≤ 21))).max?

/-- Mirrors `Hand::showdown_result`.  The source `unwrap`s the dealer hand
in the non-blackjack non-bust branch; that panic path is modelled by
`none` (update's callers pass `None` only for bust or blackjack hands, so
it is never reached). -/
def showdown_result (h : Hand) (dealer : Option Hand) : Option HandResult :=
  if is_blackjack h then some HandResult.BlackJack
  else if is_bust h then some HandResult.Lose
  else
    match dealer with
    | none => none
    | some dh =>
      match bestU21 h, bestU21 dh with
      | some pp, some dp =>
          some (if pp = dp then HandResult.Push
                else if pp < dp then HandResult.Lose
                else HandResult.Win)
      | some pp, none =>
          some (if pp ≠ 21 then HandResult.Win else HandResult.BlackJack)
      | none, _ => some HandResult.Lose

/-- Total wrapper around `showdown_result` used by `update`; the default is
never consulted because every call site guarantees a `some` result. -/
def showdownOrLose (h : Hand) (dealer : Option Hand) : HandResult :=
  (showdown_result h dealer).getD HandResult.Lose

/-- The thirteen card values in the order of `CardValue::values`. -/
def valueList : List CardValue :=
  [.Ace, .Two, .Three, .Four, .Five, .Six, .Seven, .Eight, .Nine,
   .Ten, .Jack, .Queen, .King]

/-- The four suits in the order of `CardSuit::suits`. -/
def suitList : List CardSuit :=
  [.Club, .Diamond, .Heart, .Spade]

/-- The unshuffled 7-deck shoe built by `Card::new_shuffled_horn` before
shuffling: seven copies of the 52 suit-by-value cards in loop order. -/
def baseHorn : List Card :=
  ((List.range 7).map (fun _ =>
    (suitList.map (fun st => valueList.map (fun v => Card.mk v st))).flatten)).flatten

/-- Models the external `fastrand` `Rng::shuffle` call (spec section 4.1: a
uniform random permutation, Fisher-Yates or equivalent) as a selection
shuffle: the stream `r` supplies one raw value per position, reduced
modulo the number of remaining cards; the fuel argument is the list
length. -/
def fyShuffle (r : Nat → Nat) : Nat → List Card → List Card
  | 0, _ => []
  | _ + 1, [] => []
  | n + 1, l =>
      let a := l.getD (r n % l.length) default
      a :: fyShuffle r n (l.erase a)

/-- Mirrors `Card::new_shuffled_horn`: the 7-deck shoe permuted by the
random stream. -/
def new_shuffled_horn (r : Nat → Nat) : List Card :=
  fyShuffle r baseHorn.length baseHorn

/-- Mirrors `fn draw_card`: pop the last card, reshuffling a fresh shoe
first when the shoe is empty.  `pos` is the consumption position inside
the abstract random stream; a reshuffle consumes one block of 364 values. -/
def draw_card (horn : List Card) (r : Nat → Nat) (pos : Nat) :
    Card × List Card × Nat :=
  match horn.getLast? with
  | some c => (c, horn.dropLast, pos)
  | none =>
      let fresh := new_shuffled_horn (fun k => r (pos + k))
      (fresh.getLastD default, fresh.dropLast, pos + 364)

/-- Mirrors `struct Inputs` (model.rs); only the tap (edge-triggered)
flags are read by the blackjack `update`. -/
structure Inputs where
  press_x : Bool := false
  press_z : Bool := false
  press_left : Bool := false
  press_right : Bool := false
  press_up : Bool := false
  press_down : Bool := false
  tap_x : Bool := false
  tap_z : Bool := false
  tap_left : Bool := false
  tap_right : Bool := false
  tap_up : Bool := false
  tap_down : Bool := false
deriving DecidableEq, Repr

/-- Mirrors `struct Button` (mod.rs); the text is only rendered. -/
structure Button where
  text : String
  disabled : Bool
deriving DecidableEq, Repr

/-- Mirrors `struct DealingState` (mod.rs). -/
structure DealingState where
  frame : Nat
  dealer_hand : Hand
  player_hand : Hand
deriving DecidableEq, Repr

/-- Mirrors `struct PlayingState` (mod.rs); button indices are 0 hit,
1 stand, 2 split, 3 double-down. -/
structure PlayingState where
  hit_button : Button
  stand_button : Button
  split_button : Button
  double_down_button : Button
  button_index : Nat
  dealer_hand : Hand
  player_hands : List Hand
  player_hand_index : Nat
deriving DecidableEq, Repr

/-- Mirrors `PlayingState::new`. -/
def PlayingState.new (dealer_hand player_hand : Hand) : PlayingState where
  hit_button := { text := "Hit", disabled := false }
  stand_button := { text := "Stand", disabled := false }
  split_button := { text := "Split", disabled := true }
  double_down_button := { text := "Double Down", disabled := true }
  button_index := 0
  dealer_hand := dealer_hand
  player_hands := [player_hand]
  player_hand_index := 0

/-- Mirrors `struct EndState` (mod.rs). -/
structure EndState where
  dealer_hand : Hand
  player_hands : List (Hand × HandResult)
  bought_insurance : Bool
deriving DecidableEq, Repr

/-- Mirrors `struct DealerResolvingState` (mod.rs). -/
structure DealerResolvingState where
  player_hands : List Hand
  dealer_hand : Hand
  frame_count : Nat
deriving DecidableEq, Repr

/-- Mirrors `struct InsuranceState` (mod.rs). -/
structure InsuranceState where
  dealer_hand : Hand
  player_hand : Hand
deriving DecidableEq, Repr

/-- Mirrors `enum BlackJackState` (mod.rs). -/
inductive BlackJackState where
  | Betting
  | Dealing (ds : DealingState)
  | Insurance (ins : InsuranceState)
  | Playing (ps : PlayingState)
  | DealerResolving (rs : DealerResolvingState)
  | End (es : EndState)
deriving DecidableEq, Repr

/-- Mirrors `struct BlackJack` (mod.rs); the `fastrand::Rng` field is the
abstract random stream together with its consumption position. -/
structure BlackJack where
  horn : List Card
  player_bet : Nat
  total_bet : Nat
  player_bank : Nat
  state : BlackJackState
  rng : Nat → Nat
  rpos : Nat

/-- `const BET_INCREMENT: u32 = 10`. -/
def BET_INCREMENT : Nat := 10

/-- `const MINIMUM_BET: u32 = 10`. -/
def MINIMUM_BET : Nat := 10

/-- `2^32`, the wrap modulus of the source's `u32` quantities. -/
def U32 : Nat := 4294967296

/-- Wrapping `u32` addition (Rust `+` on `u32` in release builds). -/
def wadd (a b : Nat) : Nat := (a + b) % U32

/-- Wrapping `u32` subtraction (Rust `-` on `u32` in release builds). -/
def wsub (a b : Nat) : Nat := (((a : Int) - (b : Int)) % (U32 : Int)).toNat

/-- Wrapping `u32` multiplication (Rust `*` on `u32` in release builds). -/
def wmul (a b : Nat) : Nat := (a * b) % U32

/-- `u32::saturating_add`. -/
def satAdd (a b : Nat) : Nat := min (a + b) (U32 - 1)

/-- Mirrors `BlackJack::new` (with the random seed abstracted into the
stream): fresh shuffled shoe, zero bank/bets, Betting phase. -/
def BlackJack.new (r : Nat → Nat) : BlackJack where
  horn := new_shuffled_horn r
  player_bet := 0
  total_bet := 0
  player_bank := 0
  state := BlackJackState.Betting
  rng := r
  rpos := 364

/-- Mirrors `BlackJack::share_state` (the shell installing a carried-over
bankroll). -/
def share_state (g : BlackJack) (bank : Nat) : BlackJack :=
  { g with player_bank := bank }

/-- The Betting arm of `BlackJack::update` (mod.rs lines 415-444). -/
def updateBetting (s : BlackJack) (i : Inputs) : Option Nat × BlackJack :=
  if i.tap_z then (some s.player_bank, s)
  else if s.player_bank < MINIMUM_BET then
    -- tapping confirm here only buzzes; no state change
    (none, s)
  else
    let b1 := if i.tap_up then satAdd s.player_bet BET_INCREMENT
              else if i.tap_down then s.player_bet - BET_INCREMENT
              else s.player_bet
    let b2 := max b1 MINIMUM_BET
    let b3 := min b2 s.player_bank
    if i.tap_x then
      if s.player_bank < b3 then
        -- dead branch in the source (b3 ≤ bank by the clamp); buzz only
        (none, { s with player_bet := b3 })
      else
        (none, { s with player_bet := b3,
                        player_bank := s.player_bank - b3,
                        total_bet := b3,
                        state := BlackJackState.Dealing ⟨0, ⟨[]⟩, ⟨[]⟩⟩ })
    else (none, { s with player_bet := b3 })

/-- The per-hand payout expression of the End arm (mod.rs lines 544-551),
with the source's unchecked `u32` arithmetic made explicit. -/
def endPayout (bet : Nat) : HandResult → Nat
  | HandResult.BlackJack => wadd (wmul bet 6 / 5) bet
  | HandResult.Lose => 0
  | HandResult.Push => bet
  | HandResult.Win => wmul bet 2

/-- The End arm of `BlackJack::update` (mod.rs lines 537-562). -/
def updateEnd (s : BlackJack) (es : EndState) (i : Inputs) :
    Option Nat × BlackJack :=
  let s1 :=
    if s.player_bet ≠ 0 then
      let bank' :=
        if is_blackjack es.dealer_hand then
          if es.bought_insurance then wadd s.player_bank (wmul s.player_bet 3 / 2)
          else s.player_bank
        else
          es.player_hands.foldl (fun b pr => wadd b (endPayout s.player_bet pr.2))
            s.player_bank
      { s with player_bank := bank', total_bet := 0, player_bet := 0 }
    else s
  let s2 := if i.tap_x then { s1 with state := BlackJackState.Betting } else s1
  if i.tap_z then (some s2.player_bank, s2) else (none, s2)

/-- The Dealing arm of `BlackJack::update` (mod.rs lines 563-588); the
source panics (`unreachable!`) past frame 50, which no reachable state
attains, so frames past 50 are modelled as plain ticks. -/
def updateDealing (s : BlackJack) (ds : DealingState) : Option Nat × BlackJack :=
  let f := (ds.frame + 1) % 256
  if f = 10 then
    let dc := draw_card s.horn s.rng s.rpos
    (none, { s with horn := dc.2.1, rpos := dc.2.2,
                    state := BlackJackState.Dealing
                      { ds with frame := f,
                                dealer_hand := ⟨ds.dealer_hand.cards ++ [dc.1]⟩ } })
  else if f = 20 then
    let dc := draw_card s.horn s.rng s.rpos
    (none, { s with horn := dc.2.1, rpos := dc.2.2,
                    state := BlackJackState.Dealing
                      { ds with frame := f,
                                player_hand := ⟨ds.player_hand.cards ++ [dc.1]⟩ } })
  else if f = 30 then
    let dc := draw_card s.horn s.rng s.rpos
    (none, { s with horn := dc.2.1, rpos := dc.2.2,
                    state := BlackJackState.Dealing
                      { ds with frame := f,
                                dealer_hand := ⟨ds.dealer_hand.cards ++ [dc.1]⟩ } })
  else if f = 40 then
    let dc := draw_card s.horn s.rng s.rpos
    (none, { s with horn := dc.2.1, rpos := dc.2.2,
                    state := BlackJackState.Dealing
                      { ds with frame := f,
                                player_hand := ⟨ds.player_hand.cards ++ [dc.1]⟩ } })
  else if f = 50 then
    if dealer_showing_ace ds.dealer_hand then
      (none, { s with state := BlackJackState.Insurance ⟨ds.dealer_hand, ds.player_hand⟩ })
    else
      (none, { s with state := BlackJackState.Playing
                        (PlayingState.new ds.dealer_hand ds.player_hand) })
  else (none, { s with state := BlackJackState.Dealing { ds with frame := f } })

/-- The Playing arm of `BlackJack::update` (mod.rs lines 445-536).  Note
the source quirks captured here: the active-hand borrow is taken before
the bust/blackjack index advance, so hit/split/double-down still act on
the hand at the old index, and stand/double-down increment the already
advanced index. -/
def updatePlaying (s : BlackJack) (ps : PlayingState) (i : Inputs) :
    Option Nat × BlackJack :=
  if ps.player_hands.length ≤ ps.player_hand_index then
    let showdown_needed := ps.player_hands.any (fun h => !(is_bust h || is_blackjack h))
    if showdown_needed then
      (none, { s with state := BlackJackState.DealerResolving
                        ⟨ps.player_hands, ps.dealer_hand, 0⟩ })
    else
      (none, { s with state := BlackJackState.End
                        ⟨ps.dealer_hand,
                         ps.player_hands.map (fun h => (h, showdownOrLose h none)),
                         false⟩ })
  else
    let idx := ps.player_hand_index
    let hand := ps.player_hands.getD idx default
    let idx1 := if is_bust hand || is_blackjack hand then idx + 1 else idx
    let splitD := !(can_split hand && decide (s.player_bet ≤ s.player_bank))
    let ddD := !(can_double_down hand && decide (s.player_bet ≤ s.player_bank))
    let ps1 := { ps with player_hand_index := idx1,
                         split_button := { ps.split_button with disabled := splitD },
                         double_down_button := { ps.double_down_button with disabled := ddD } }
    if i.tap_x then
      if ps1.button_index == 0 && !ps1.hit_button.disabled then
        let dc := draw_card s.horn s.rng s.rpos
        (none, { s with horn := dc.2.1, rpos := dc.2.2,
                        state := BlackJackState.Playing
                          { ps1 with player_hands :=
                              ps1.player_hands.set idx ⟨hand.cards ++ [dc.1]⟩ } })
      else if ps1.button_index == 1 && !ps1.stand_button.disabled then
        (none, { s with state := BlackJackState.Playing
                          { ps1 with player_hand_index := idx1 + 1 } })
      else if ps1.button_index == 2 && !splitD then
        let popped := hand.cards.getLastD default
        let kept := hand.cards.dropLast
        let dc1 := draw_card s.horn s.rng s.rpos
        let dc2 := draw_card dc1.2.1 s.rng dc1.2.2
        (none, { s with horn := dc2.2.1, rpos := dc2.2.2,
                        total_bet := wadd s.total_bet s.player_bet,
                        state := BlackJackState.Playing
                          { ps1 with player_hands :=
                              (ps1.player_hands.set idx ⟨kept ++ [dc1.1]⟩) ++ [⟨[popped, dc2.1]⟩] } })
      else if ps1.button_index == 3 && !ddD then
        let dc := draw_card s.horn s.rng s.rpos
        let hands' := ps1.player_hands.set idx ⟨hand.cards ++ [dc.1]⟩
        (none, { s with horn := dc.2.1, rpos := dc.2.2,
                        total_bet := wadd s.total_bet s.player_bet,
                        state := BlackJackState.Playing
                          { ps1 with player_hands := hands',
                                     player_hand_index := idx1 + 1 } })
      else
        -- disabled or out-of-range button: buzz only
        (none, { s with state := BlackJackState.Playing ps1 })
    else
      let b1 := if i.tap_right && ps1.button_index % 2 == 0
                then ps1.button_index + 1 else ps1.button_index
      let b2 := if i.tap_left && b1 % 2 == 1 then b1 - 1 else b1
      let b3 := if i.tap_down && b2 / 2 == 0 then b2 + 2 else b2
      let b4 := if i.tap_up && b3 / 2 == 1 then b3 - 2 else b3
      (none, { s with state := BlackJackState.Playing { ps1 with button_index := b4 } })

/-- The DealerResolving arm of `BlackJack::update` (mod.rs lines 589-610). -/
def updateDealerResolving (s : BlackJack) (rs : DealerResolvingState) :
    Option Nat × BlackJack :=
  let fc := rs.frame_count + 1
  if dealer_must_hit rs.dealer_hand && !is_bust rs.dealer_hand then
    if fc % 30 == 0 then
      let dc := draw_card s.horn s.rng s.rpos
      (none, { s with horn := dc.2.1, rpos := dc.2.2,
                      state := BlackJackState.DealerResolving
                        ⟨rs.player_hands, ⟨rs.dealer_hand.cards ++ [dc.1]⟩, fc⟩ })
    else
      (none, { s with state := BlackJackState.DealerResolving
                        { rs with frame_count := fc } })
  else
    (none, { s with state := BlackJackState.End
                      ⟨rs.dealer_hand,
                       rs.player_hands.map
                         (fun h => (h, showdownOrLose h (some rs.dealer_hand))),
                       false⟩ })

/-- The Insurance arm of `BlackJack::update` (mod.rs lines 611-640).  Note
the unchecked `u32` subtraction `player_bank -= player_bet / 2` on
acceptance, modelled by `wsub`. -/
def updateInsurance (s : BlackJack) (ins : InsuranceState) (i : Inputs) :
    Option Nat × BlackJack :=
  if i.tap_x || i.tap_z then
    let bank' := if i.tap_x then wsub s.player_bank (s.player_bet / 2)
                 else s.player_bank
    let bought := i.tap_x
    if is_blackjack ins.dealer_hand then
      (none, { s with player_bank := bank',
                      state := BlackJackState.End
                        ⟨ins.dealer_hand,
                         [(ins.player_hand,
                           if is_blackjack ins.player_hand then HandResult.BlackJack
                           else HandResult.Lose)],
                         bought⟩ })
    else
      (none, { s with player_bank := bank',
                      state := BlackJackState.Playing
                        (PlayingState.new ins.dealer_hand ins.player_hand) })
  else (none, s)

/-- Mirrors `BlackJack::update` (`Model::update` impl): dispatch on the
current phase; player-one inputs only; every arm that does not
explicitly return the bankroll yields `none`. -/
def update (s : BlackJack) (i : Inputs) : Option Nat × BlackJack :=
  match s.state with
  | BlackJackState.Betting => updateBetting s i
  | BlackJackState.Playing ps => updatePlaying s ps i
  | BlackJackState.End es => updateEnd s es i
  | BlackJackState.Dealing ds => updateDealing s ds
  | BlackJackState.DealerResolving rs => updateDealerResolving s rs
  | BlackJackState.Insurance ins => updateInsurance s ins i

/-! ### Specification-side definitions (from the claims' words, for
refinement comparisons) -/

/-- Number of Aces in a card list. -/
def aceCount (cs : List Card) : Nat :=
  cs.countP (fun c => c.value == CardValue.Ace)

/-- Spec-side totals set (claim C3's words): every total obtainable by
counting each Ace independently as 1 or 11 and each Ten/Jack/Queen/King
as 10 (other ranks at face value). -/
def choiceTotals : List Card → Finset Nat
  | [] => {0}
  | c :: cs =>
      if c.value = CardValue.Ace then
        (choiceTotals cs).image (· + 1) ∪ (choiceTotals cs).image (· + 11)
      else
        (choiceTotals cs).image (· + lowValue c.value)

/-- Spec-side per-hand payout (claim C1's words), in plain arithmetic:
BlackJack pays bet*6/5 + bet, Push returns the bet, Win pays double,
Lose pays nothing. -/
def specPayout (bet : Nat) : HandResult → Nat
  | HandResult.BlackJack => bet * 6 / 5 + bet
  | HandResult.Lose => 0
  | HandResult.Push => bet
  | HandResult.Win => 2 * bet

/-- The phases from which `update` may return the bankroll according to
claim C9: Betting and End. -/
def isBettingOrEnd : BlackJackState → Bool
  | BlackJackState.Betting => true
  | BlackJackState.End _ => true
  | _ => false

/-- Phase tag: Betting. -/
def isBetting : BlackJackState → Bool
  | BlackJackState.Betting => true
  | _ => false

/-- Phase tag: Dealing. -/
def isDealing : BlackJackState → Bool
  | BlackJackState.Dealing _ => true
  | _ => false

/-- Phase tag: Insurance. -/
def isInsurance : BlackJackState → Bool
  | BlackJackState.Insurance _ => true
  | _ => false

/-- Phase tag: Playing. -/
def isPlaying : BlackJackState → Bool
  | BlackJackState.Playing _ => true
  | _ => false

/-- Phase tag: DealerResolving. -/
def isDealerResolving : BlackJackState → Bool
  | BlackJackState.DealerResolving _ => true
  | _ => false

/-- Phase tag: End. -/
def isEnd : BlackJackState → Bool
  | BlackJackState.End _ => true
  | _ => false

/-- Whether this tick confirms a split: Playing phase, active hand in
range, confirm tapped on the split button with the split enabled
(splittable hand and bank covering the bet). -/
def splitFires (s : BlackJack) (i : Inputs) : Bool :=
  match s.state with
  | BlackJackState.Playing ps =>
      i.tap_x && decide (ps.player_hand_index < ps.player_hands.length) &&
      ps.button_index == 2 &&
      can_split (ps.player_hands.getD ps.player_hand_index default) &&
      decide (s.player_bet ≤ s.player_bank)
  | _ => false

/-- Whether this tick confirms a double-down, analogously to `splitFires`. -/
def ddFires (s : BlackJack) (i : Inputs) : Bool :=
  match s.state with
  | BlackJackState.Playing ps =>
      i.tap_x && decide (ps.player_hand_index < ps.player_hands.length) &&
      ps.button_index == 3 &&
      can_double_down (ps.player_hands.getD ps.player_hand_index default) &&
      decide (s.player_bet ≤ s.player_bank)
  | _ => false

/-! ### Concrete fixtures for counterexamples and witnesses -/

/-- An input snapshot with no buttons pressed. -/
def noInput : Inputs := {}

/-- Confirm (x) newly tapped. -/
def tapX : Inputs := { tap_x := true }

/-- Cancel/exit (z) newly tapped. -/
def tapZ : Inputs := { tap_z := true }

/-- Bet-increase (up) newly tapped. -/
def tapUp : Inputs := { tap_up := true }

/-- A constant random stream (any stream works for the concrete states
below, whose shoes are never empty when drawn from). -/
def constR : Nat → Nat := fun _ => 0

/-- A player blackjack hand: Ace and King. -/
def pBJhand : Hand := ⟨[⟨CardValue.Ace, CardSuit.Heart⟩, ⟨CardValue.King, CardSuit.Heart⟩]⟩

/-- A dealer blackjack hand showing its Ace as the up-card (`cards[1]`). -/
def dBJhand : Hand := ⟨[⟨CardValue.Ten, CardSuit.Spade⟩, ⟨CardValue.Ace, CardSuit.Spade⟩]⟩

/-- A 19-point dealer hand (Ten, Nine): no blackjack. -/
def d19hand : Hand := ⟨[⟨CardValue.Ten, CardSuit.Club⟩, ⟨CardValue.Nine, CardSuit.Club⟩]⟩

/-- The soft-17 dealer hand (Six, Ace) of claim C4. -/
def soft17hand : Hand := ⟨[⟨CardValue.Six, CardSuit.Club⟩, ⟨CardValue.Ace, CardSuit.Club⟩]⟩

/-- A two-Ace-plus-Seven hand used to witness the points closure. -/
def acesHand : Hand :=
  ⟨[⟨CardValue.Ace, CardSuit.Heart⟩, ⟨CardValue.Ace, CardSuit.Spade⟩,
    ⟨CardValue.Seven, CardSuit.Club⟩]⟩

/-- End-phase state reached by declining insurance against a dealer
blackjack while holding a player blackjack: bet 10, bank 100 (claim C1's
counterexample). -/
def endDealerBJState : BlackJack where
  horn := []
  player_bet := 10
  total_bet := 10
  player_bank := 100
  state := BlackJackState.End ⟨dBJhand, [(pBJhand, HandResult.BlackJack)], false⟩
  rng := constR
  rpos := 0

/-- End-phase state with no dealer blackjack and a player blackjack
outcome: bet 10, bank 90 (the spec's payout scenario, used as witness for
the amended C1). -/
def endNoBJState : BlackJack where
  horn := []
  player_bet := 10
  total_bet := 10
  player_bank := 90
  state := BlackJackState.End ⟨d19hand, [(pBJhand, HandResult.BlackJack)], false⟩
  rng := constR
  rpos := 0

/-- Insurance-phase state with the bank emptied by a minimum-bet confirm
(bank 10, bet 10 confirmed, dealer showing an Ace): the failing input of
claim C5. -/
def insPoorState : BlackJack where
  horn := [⟨CardValue.Two, CardSuit.Club⟩, ⟨CardValue.Five, CardSuit.Diamond⟩]
  player_bet := 10
  total_bet := 10
  player_bank := 0
  state := BlackJackState.Insurance ⟨dBJhand,
    ⟨[⟨CardValue.Two, CardSuit.Heart⟩, ⟨CardValue.Three, CardSuit.Heart⟩]⟩⟩
  rng := constR
  rpos := 0

/-- The Playing-phase payload after one split of a pair of Eights where the
first hand drew another Eight: hands [[8s,8h],[8d,9d]], split button
selected. -/
def splitAgainPS : PlayingState where
  hit_button := { text := "Hit", disabled := false }
  stand_button := { text := "Stand", disabled := false }
  split_button := { text := "Split", disabled := false }
  double_down_button := { text := "Double Down", disabled := true }
  button_index := 2
  dealer_hand := d19hand
  player_hands := [⟨[⟨CardValue.Eight, CardSuit.Spade⟩, ⟨CardValue.Eight, CardSuit.Heart⟩]⟩,
                   ⟨[⟨CardValue.Eight, CardSuit.Diamond⟩, ⟨CardValue.Nine, CardSuit.Diamond⟩]⟩]
  player_hand_index := 0

/-- Playing-phase state around `splitAgainPS`: bet 10, total_bet 20,
bank 50 (claim C8's counterexample). -/
def splitAgainState : BlackJack where
  horn := [⟨CardValue.Two, CardSuit.Club⟩, ⟨CardValue.Three, CardSuit.Club⟩,
           ⟨CardValue.Four, CardSuit.Club⟩]
  player_bet := 10
  total_bet := 20
  player_bank := 50
  state := BlackJackState.Playing splitAgainPS
  rng := constR
  rpos := 0

/-- A fresh-session Betting state with a 15-chip bankroll installed by the
shell (`share_state`), used for claim C6's counterexample.  The shoe is a
small concrete list (the Betting arm never touches it). -/
def bank15State : BlackJack :=
  share_state
    { horn := [⟨CardValue.Two, CardSuit.Club⟩]
      player_bet := 0
      total_bet := 0
      player_bank := 0
      state := BlackJackState.Betting
      rng := constR
      rpos := 364 } 15

/-- An End-phase state with zero pending bet (settlement already applied),
used as a concrete exit-tick for claim C9's witness. -/
def endSettledState : BlackJack where
  horn := []
  player_bet := 0
  total_bet := 0
  player_bank := 112
  state := BlackJackState.End ⟨d19hand, [(pBJhand, HandResult.BlackJack)], false⟩
  rng := constR
  rpos := 0

/-! ## Theorems -/

/-! ### Points characterization (claim C3 support) -/

theorem mem_spreadAces (cs : List Card) (pts : List Nat) (t : Nat) :
    t ∈ spreadAces cs pts ↔ ∃ p ∈ pts, ∃ i, i ≤ aceCount cs ∧ t = p + 10 * i := by
  induction cs generalizing pts with
  | nil =>
    simp [spreadAces, aceCount]
  | cons c rest ih =>
    by_cases hc : c.value = CardValue.Ace
    · rw [show spreadAces (c :: rest) pts
            = spreadAces rest (pts ++ pts.map (· + 10)) by simp [spreadAces, hc]]
      rw [ih]
      have hk : aceCount (c :: rest) = aceCount rest + 1 := by
        simp [aceCount, List.countP_cons, hc]
      rw [hk]
      constructor
      · rintro ⟨p, hp, i, hik, rfl⟩
        rcases List.mem_append.mp hp with h | h
        · exact ⟨p, h, i, by omega, rfl⟩
        · rcases List.mem_map.mp h with ⟨q, hq, rfl⟩
          exact ⟨q, hq, i + 1, by omega, by ring⟩
      · rintro ⟨q, hq, j, hj, rfl⟩
        rcases Nat.eq_zero_or_pos j with rfl | hpos
        · exact ⟨q, List.mem_append.mpr (Or.inl hq), 0, by omega, rfl⟩
        · refine ⟨q + 10, List.mem_append.mpr (Or.inr (List.mem_map.mpr ⟨q, hq, rfl⟩)),
            j - 1, by omega, by omega⟩
    · rw [show spreadAces (c :: rest) pts = spreadAces rest pts by simp [spreadAces, hc]]
      rw [ih]
      have hk : aceCount (c :: rest) = aceCount rest := by
        simp [aceCount, List.countP_cons, hc]
      rw [hk]

theorem mem_choiceTotals (cs : List Card) : ∀ t : Nat,
    t ∈ choiceTotals cs ↔ ∃ i, i ≤ aceCount cs ∧ t = lowSum cs + 10 * i := by
  induction cs with
  | nil =>
    intro t
    simp [choiceTotals, lowSum, aceCount]
  | cons c rest ih =>
    intro t
    by_cases hc : c.value = CardValue.Ace
    · have hk : aceCount (c :: rest) = aceCount rest + 1 := by
        simp [aceCount, List.countP_cons, hc]
      have hl : lowSum (c :: rest) = 1 + lowSum rest := by
        simp [lowSum, hc, lowValue]
      rw [show choiceTotals (c :: rest)
            = (choiceTotals rest).image (· + 1) ∪ (choiceTotals rest).image (· + 11) by
          simp [choiceTotals, hc]]
      rw [hk, hl, Finset.mem_union, Finset.mem_image, Finset.mem_image]
      constructor
      · rintro (⟨u, hu, rfl⟩ | ⟨u, hu, rfl⟩)
        · rcases (ih u).mp hu with ⟨i, hik, rfl⟩
          exact ⟨i, by omega, by omega⟩
        · rcases (ih u).mp hu with ⟨i, hik, rfl⟩
          exact ⟨i + 1, by omega, by omega⟩
      · rintro ⟨j, hj, rfl⟩
        rcases Nat.eq_zero_or_pos j with rfl | hpos
        · exact Or.inl ⟨lowSum rest, (ih _).mpr ⟨0, by omega, by omega⟩, by omega⟩
        · exact Or.inr ⟨lowSum rest + 10 * (j - 1),
            (ih _).mpr ⟨j - 1, by omega, rfl⟩, by omega⟩
    · have hk : aceCount (c :: rest) = aceCount rest := by
        simp [aceCount, List.countP_cons, hc]
      have hl : lowSum (c :: rest) = lowValue c.value + lowSum rest := by
        simp [lowSum]
      rw [show choiceTotals (c :: rest) = (choiceTotals rest).image (· + lowValue c.value) by
          simp [choiceTotals, hc]]
      rw [hk, hl, Finset.mem_image]
      constructor
      · rintro ⟨u, hu, rfl⟩
        rcases (ih u).mp hu with ⟨i, hik, rfl⟩
        exact ⟨i, hik, by omega⟩
      · rintro ⟨j, hj, rfl⟩
        exact ⟨lowSum rest + 10 * j, (ih _).mpr ⟨j, hj, rfl⟩, by omega⟩

theorem mem_points (h : Hand) (t : Nat) :
    t ∈ points h ↔ ∃ i, i ≤ aceCount h.cards ∧ t = lowSum h.cards + 10 * i := by
  unfold points
  rw [mem_spreadAces]
  simp

/-- C3: `points()` returns exactly the set of totals obtainable by counting
each Ace independently as 1 or 11 and each Ten/Jack/Queen/King as 10 (other
ranks at face value); in particular the all-Aces-as-1 total is always a
member, and for every Ace counted as 11 instead of 1 the total 10 higher
than the corresponding lower total is also a member. -/
theorem c3_points_exact (h : Hand) :
    (points h).toFinset = choiceTotals h.cards
  ∧ lowSum h.cards ∈ points h
  ∧ (∀ i, i ≤ aceCount h.cards → lowSum h.cards + 10 * i ∈ points h) := by
  refine ⟨?_, ?_, ?_⟩
  · ext t
    rw [List.mem_toFinset, mem_points, mem_choiceTotals]
  · rw [mem_points]
    exact ⟨0, Nat.zero_le _, by omega⟩
  · intro i hi
    rw [mem_points]
    exact ⟨i, hi, rfl⟩

/-- Witness for C3 at the concrete hand (Ace, Ace, Seven). -/
theorem c3_witness : lowSum acesHand.cards + 10 * 2 ∈ points acesHand :=
  (c3_points_exact acesHand).2.2 2 (by decide)

/-! ### Dealer stand policy (claim C4) -/

/-- C4: `dealer_must_hit()` returns false exactly when some achievable
total of the hand lies in [17, 21]; in particular the soft-17 hand
(Six, Ace) makes the dealer stand. -/
theorem c4_dealer_must_hit :
    (∀ h : Hand, dealer_must_hit h = false ↔ ∃ pt ∈ points h, 17 ≤ pt ∧ pt ≤ 21)
  ∧ dealer_must_hit soft17hand = false := by
  constructor
  · intro h
    simp [dealer_must_hit, List.any_eq_true]
  · decide

/-! ### Showdown classification (claim C2) -/

/-- Counterexample to C2 as stated: a player blackjack against a dealer
blackjack is classified `BlackJack`, not `Push`. -/
theorem c2_counterexample :
    is_blackjack pBJhand = true ∧ is_blackjack dBJhand = true ∧
    showdown_result pBJhand (some dBJhand) = some HandResult.BlackJack ∧
    showdown_result pBJhand (some dBJhand) ≠ some HandResult.Push := by
  decide

/-- C2 (amended): a player blackjack is classified `BlackJack`
unconditionally (even against a dealer blackjack — there is no push in
that case); a bust player hand always loses; otherwise the best totals
not exceeding 21 are compared, the higher wins and equal totals push;
if the dealer has no total at most 21 and the player does, the player
wins unless the player's best total is exactly 21, which yields the
BlackJack-tier outcome. -/
theorem c2_amended (p d : Hand) :
    (is_blackjack p = true → showdown_result p (some d) = some HandResult.BlackJack)
  ∧ (is_blackjack p = false → is_bust p = true →
       showdown_result p (some d) = some HandResult.Lose)
  ∧ (is_blackjack p = false → is_bust p = false →
       ∃ pp, bestU21 p = some pp
         ∧ (∀ dp, bestU21 d = some dp →
              showdown_result p (some d) =
                some (if pp = dp then HandResult.Push
                      else if pp < dp then HandResult.Lose else HandResult.Win))
         ∧ (bestU21 d = none →
              showdown_result p (some d) =
                some (if pp ≠ 21 then HandResult.Win else HandResult.BlackJack))) := by
  refine ⟨?_, ?_, ?_⟩
  · intro hbj
    simp [showdown_result, hbj]
  · intro hbj hb
    simp [showdown_result, hbj, hb]
  · intro hbj hb
    have hex : ∃ pp, bestU21 p = some pp := by
      have hpt : ∃ pt ∈ points p, pt ≤ 21 := by
        rcases List.all_eq_false.mp hb with ⟨pt, hmem, hpt⟩
        exact ⟨pt, hmem, by simpa using hpt⟩
      rcases hpt with ⟨pt, hmem, hle⟩
      cases hmax : bestU21 p with
      | none =>
        exfalso
        have : (points p).filter (fun pt => decide (pt ≤ 21)) = [] := by
          simpa [bestU21] using hmax
        have : pt ∈ ([] : List Nat) := by
          rw [← this]
          exact List.mem_filter.mpr ⟨hmem, by simpa using hle⟩
        simp at this
      | some pp => exact ⟨pp, rfl⟩
    rcases hex with ⟨pp, hpp⟩
    refine ⟨pp, hpp, ?_, ?_⟩
    · intro dp hdp
      simp [showdown_result, hbj, hb, hpp, hdp]
    · intro hdn
      simp [showdown_result, hbj, hb, hpp, hdn]

/-- Witness for the amended C2 at concrete hands: a 19 player hand loses
the comparison against a dealer hand whose best total is 21. -/
theorem c2_witness :
    showdown_result d19hand (some dBJhand) = some HandResult.Lose := by
  obtain ⟨pp, hpp, hcmp, hnone⟩ :=
    (c2_amended d19hand dBJhand).2.2 (by decide) (by decide)
  have h19 : bestU21 d19hand = some 19 := by decide
  rw [h19] at hpp
  obtain rfl : (19 : Nat) = pp := Option.some.inj hpp
  have hres := hcmp 21 (by decide)
  rw [if_neg (by decide), if_pos (by decide)] at hres
  exact hres

/-! ### Shoe (claim C7) -/

theorem fyShuffle_perm (r : Nat → Nat) :
    ∀ (n : Nat) (l : List Card), n = l.length → (fyShuffle r n l).Perm l := by
  intro n
  induction n with
  | zero =>
    intro l hl
    have : l = [] := by
      cases l with
      | nil => rfl
      | cons a as => simp at hl
    subst this
    simp [fyShuffle]
  | succ n ih =>
    intro l hl
    cases l with
    | nil => simp at hl
    | cons a as =>
      have hpos : 0 < (a :: as).length := by simp
      have hidx : r n % (a :: as).length < (a :: as).length := Nat.mod_lt _ hpos
      have hmem : (a :: as).getD (r n % (a :: as).length) default ∈ a :: as := by
        rw [List.getD_eq_getElem _ _ hidx]
        exact List.getElem_mem hidx
      have hlen : n = ((a :: as).erase ((a :: as).getD (r n % (a :: as).length) default)).length := by
        rw [List.length_erase_of_mem hmem]
        simp at hl ⊢
        omega
      have hperm := ih _ hlen
      have hstep : fyShuffle r (n + 1) (a :: as)
          = (a :: as).getD (r n % (a :: as).length) default ::
              fyShuffle r n ((a :: as).erase ((a :: as).getD (r n % (a :: as).length) default)) := by
        simp [fyShuffle]
      rw [hstep]
      exact (hperm.cons _).trans (List.perm_cons_erase hmem).symm

theorem new_shuffled_horn_perm (r : Nat → Nat) :
    (new_shuffled_horn r).Perm baseHorn :=
  fyShuffle_perm r baseHorn.length baseHorn rfl

theorem baseHorn_length : baseHorn.length = 364 := by decide

/-- C7: drawing never fails — from a non-empty shoe, `draw_card` removes
and returns the last card; from an empty shoe it first builds a freshly
shuffled shoe (a permutation of the 7 × 52 = 364-card base shoe) and then
removes its last card, leaving exactly 363 cards. -/
theorem c7_draw_card (horn : List Card) (r : Nat → Nat) (pos : Nat) :
    (∀ rest c, horn = rest ++ [c] → draw_card horn r pos = (c, rest, pos))
  ∧ (horn = [] →
      (new_shuffled_horn (fun k => r (pos + k))).Perm baseHorn
      ∧ baseHorn.length = 364
      ∧ (draw_card horn r pos).2.1.length = 363
      ∧ (draw_card horn r pos).1 =
          (new_shuffled_horn (fun k => r (pos + k))).getLastD default
      ∧ (draw_card horn r pos).2.1 =
          (new_shuffled_horn (fun k => r (pos + k))).dropLast
      ∧ (draw_card horn r pos).2.2 = pos + 364) := by
  constructor
  · rintro rest c rfl
    simp [draw_card, List.getLast?_concat, List.dropLast_concat]
  · rintro rfl
    have hperm : (new_shuffled_horn (fun k => r (pos + k))).Perm baseHorn :=
      new_shuffled_horn_perm _
    have hlen : (new_shuffled_horn (fun k => r (pos + k))).length = 364 := by
      rw [hperm.length_eq, baseHorn_length]
    refine ⟨hperm, baseHorn_length, ?_, ?_, ?_, ?_⟩
    · show ((new_shuffled_horn (fun k => r (pos + k))).dropLast).length = 363
      rw [List.length_dropLast, hlen]
    · rfl
    · rfl
    · rfl

/-- Witness for C7: drawing from a one-card shoe returns that card and the
empty shoe; drawing from the empty shoe leaves 363 cards. -/
theorem c7_witness :
    draw_card [(⟨CardValue.Two, CardSuit.Club⟩ : Card)] constR 0 =
      (⟨CardValue.Two, CardSuit.Club⟩, [], 0)
  ∧ (draw_card [] constR 0).2.1.length = 363 := by
  constructor
  · exact (c7_draw_card _ constR 0).1 [] _ rfl
  · exact ((c7_draw_card [] constR 0).2 rfl).2.2.1

/-! ### Per-arm facts about `update` (claims C9 and C10 support) -/

theorem updateBetting_fst (s : BlackJack) (i : Inputs) :
    (updateBetting s i).1 = if i.tap_z then some s.player_bank else none := by
  simp only [updateBetting]
  split_ifs <;> rfl

theorem updateEnd_fst_isSome (s : BlackJack) (es : EndState) (i : Inputs) :
    (updateEnd s es i).1.isSome = i.tap_z := by
  simp only [updateEnd]
  split_ifs <;> simp_all

theorem updatePlaying_fst (s : BlackJack) (ps : PlayingState) (i : Inputs) :
    (updatePlaying s ps i).1 = none := by
  simp only [updatePlaying]
  split_ifs <;> rfl

theorem updateDealing_fst (s : BlackJack) (ds : DealingState) :
    (updateDealing s ds).1 = none := by
  simp only [updateDealing]
  split_ifs <;> rfl

theorem updateDealerResolving_fst (s : BlackJack) (rs : DealerResolvingState) :
    (updateDealerResolving s rs).1 = none := by
  simp only [updateDealerResolving]
  split_ifs <;> rfl

theorem updateInsurance_fst (s : BlackJack) (ins : InsuranceState) (i : Inputs) :
    (updateInsurance s ins i).1 = none := by
  simp only [updateInsurance]
  split_ifs <;> rfl

theorem updatePlaying_bank (s : BlackJack) (ps : PlayingState) (i : Inputs) :
    (updatePlaying s ps i).2.player_bank = s.player_bank := by
  simp only [updatePlaying]
  split_ifs <;> rfl

theorem updateDealing_bank (s : BlackJack) (ds : DealingState) :
    (updateDealing s ds).2.player_bank = s.player_bank := by
  simp only [updateDealing]
  split_ifs <;> rfl

theorem updateDealerResolving_bank (s : BlackJack) (rs : DealerResolvingState) :
    (updateDealerResolving s rs).2.player_bank = s.player_bank := by
  simp only [updateDealerResolving]
  split_ifs <;> rfl

theorem updateBetting_bank (s : BlackJack) (i : Inputs) (h : i.tap_x = false) :
    (updateBetting s i).2.player_bank = s.player_bank := by
  simp only [updateBetting]
  split_ifs <;> simp_all

theorem updateInsurance_bank (s : BlackJack) (ins : InsuranceState) (i : Inputs)
    (h : i.tap_x = false) :
    (updateInsurance s ins i).2.player_bank = s.player_bank := by
  simp only [updateInsurance]
  split_ifs <;> simp_all

theorem updateEnd_bank (s : BlackJack) (es : EndState) (i : Inputs)
    (h : s.player_bet = 0) :
    (updateEnd s es i).2.player_bank = s.player_bank := by
  simp only [updateEnd]
  split_ifs <;> simp_all

/-! ### Claim C9: bankroll returned only on explicit exit -/

/-- C9: `update` returns a final bankroll only in the Betting or End phase
and only when the exit button (z) is newly pressed this tick; in the
Dealing, Insurance, Playing and DealerResolving phases it always returns
`none`. -/
theorem c9_exit_only (s : BlackJack) (i : Inputs) :
    ((update s i).1.isSome = true → isBettingOrEnd s.state = true ∧ i.tap_z = true)
  ∧ (isBettingOrEnd s.state = false → (update s i).1 = none) := by
  constructor
  · intro hs
    cases hst : s.state with
    | Betting =>
      simp only [update, hst, updateBetting_fst] at hs
      refine ⟨by simp [isBettingOrEnd, hst], ?_⟩
      cases hz : i.tap_z with
      | false => rw [hz] at hs; simp at hs
      | true => rfl
    | End es =>
      simp only [update, hst, updateEnd_fst_isSome] at hs
      exact ⟨by simp [isBettingOrEnd, hst], hs⟩
    | Dealing ds =>
      simp only [update, hst, updateDealing_fst] at hs
      simp at hs
    | DealerResolving rs =>
      simp only [update, hst, updateDealerResolving_fst] at hs
      simp at hs
    | Playing ps =>
      simp only [update, hst, updatePlaying_fst] at hs
      simp at hs
    | Insurance ins =>
      simp only [update, hst, updateInsurance_fst] at hs
      simp at hs
  · intro hb
    cases hst : s.state with
    | Betting => rw [hst] at hb; simp [isBettingOrEnd] at hb
    | End es => rw [hst] at hb; simp [isBettingOrEnd] at hb
    | Dealing ds => simp only [update, hst, updateDealing_fst]
    | DealerResolving rs => simp only [update, hst, updateDealerResolving_fst]
    | Playing ps => simp only [update, hst, updatePlaying_fst]
    | Insurance ins => simp only [update, hst, updateInsurance_fst]

/-- Witness for C9: an exit tap in a settled End phase does return the
bankroll, and a tick in the Insurance phase returns none. -/
theorem c9_witness :
    (isBettingOrEnd endSettledState.state = true ∧ tapZ.tap_z = true)
  ∧ (update insPoorState noInput).1 = none := by
  constructor
  · exact (c9_exit_only endSettledState tapZ).1 (by decide)
  · exact (c9_exit_only insPoorState noInput).2 (by decide)

/-! ### Claim C10: bank frame conditions and split/double-down accounting -/

theorem updatePlaying_wager (s : BlackJack) (ps : PlayingState) (i : Inputs)
    (hidx : ps.player_hand_index < ps.player_hands.length)
    (hx : i.tap_x = true) (hbb : s.player_bet ≤ s.player_bank)
    (hbtn :
      (ps.button_index = 2
        ∧ can_split (ps.player_hands.getD ps.player_hand_index default) = true)
      ∨ (ps.button_index = 3
        ∧ can_double_down (ps.player_hands.getD ps.player_hand_index default) = true)) :
    (updatePlaying s ps i).2.total_bet = wadd s.total_bet s.player_bet := by
  have hno : ¬(ps.player_hands.length ≤ ps.player_hand_index) := by omega
  rcases hbtn with ⟨hbi, hc⟩ | ⟨hbi, hc⟩ <;>
    simp only [List.getD_eq_getElem?_getD] at hc <;>
    simp [updatePlaying, hno, hx, hbi, hc, hbb]

/-- C10: within a round, `player_bank` is modified only at bet confirmation
in Betting, at insurance acceptance, and at End settlement: the Playing,
Dealing and DealerResolving arms never touch the bank, Betting and
Insurance leave it unchanged without a confirm tap, and End leaves it
unchanged once the pending bet is zero; confirming a split or a
double-down adds `player_bet` to `total_bet` while leaving `player_bank`
unchanged. -/
theorem c10_bank_frame (s : BlackJack) (i : Inputs) :
    (isPlaying s.state = true → (update s i).2.player_bank = s.player_bank)
  ∧ (isDealing s.state = true → (update s i).2.player_bank = s.player_bank)
  ∧ (isDealerResolving s.state = true → (update s i).2.player_bank = s.player_bank)
  ∧ (isBetting s.state = true → i.tap_x = false →
       (update s i).2.player_bank = s.player_bank)
  ∧ (isInsurance s.state = true → i.tap_x = false →
       (update s i).2.player_bank = s.player_bank)
  ∧ (isEnd s.state = true → s.player_bet = 0 →
       (update s i).2.player_bank = s.player_bank)
  ∧ ((splitFires s i = true ∨ ddFires s i = true) →
       (update s i).2.player_bank = s.player_bank
       ∧ (s.total_bet + s.player_bet < U32 →
            (update s i).2.total_bet = s.total_bet + s.player_bet)) := by
  cases hst : s.state with
  | Betting =>
    refine ⟨fun h => by simp [isPlaying] at h,
            fun h => by simp [isDealing] at h,
            fun h => by simp [isDealerResolving] at h,
            fun _ hx => ?_,
            fun h => by simp [isInsurance] at h,
            fun h => by simp [isEnd] at h,
            fun h => ?_⟩
    · simp only [update, hst]
      exact updateBetting_bank s i hx
    · exfalso
      rcases h with h | h
      · simp [splitFires, hst] at h
      · simp [ddFires, hst] at h
  | Dealing ds =>
    refine ⟨fun h => by simp [isPlaying] at h,
            fun _ => ?_,
            fun h => by simp [isDealerResolving] at h,
            fun h => by simp [isBetting] at h,
            fun h => by simp [isInsurance] at h,
            fun h => by simp [isEnd] at h,
            fun h => ?_⟩
    · simp only [update, hst]
      exact updateDealing_bank s ds
    · exfalso
      rcases h with h | h
      · simp [splitFires, hst] at h
      · simp [ddFires, hst] at h
  | Insurance ins =>
    refine ⟨fun h => by simp [isPlaying] at h,
            fun h => by simp [isDealing] at h,
            fun h => by simp [isDealerResolving] at h,
            fun h => by simp [isBetting] at h,
            fun _ hx => ?_,
            fun h => by simp [isEnd] at h,
            fun h => ?_⟩
    · simp only [update, hst]
      exact updateInsurance_bank s ins i hx
    · exfalso
      rcases h with h | h
      · simp [splitFires, hst] at h
      · simp [ddFires, hst] at h
  | DealerResolving rs =>
    refine ⟨fun h => by simp [isPlaying] at h,
            fun h => by simp [isDealing] at h,
            fun _ => ?_,
            fun h => by simp [isBetting] at h,
            fun h => by simp [isInsurance] at h,
            fun h => by simp [isEnd] at h,
            fun h => ?_⟩
    · simp only [update, hst]
      exact updateDealerResolving_bank s rs
    · exfalso
      rcases h with h | h
      · simp [splitFires, hst] at h
      · simp [ddFires, hst] at h
  | End es =>
    refine ⟨fun h => by simp [isPlaying] at h,
            fun h => by simp [isDealing] at h,
            fun h => by simp [isDealerResolving] at h,
            fun h => by simp [isBetting] at h,
            fun h => by simp [isInsurance] at h,
            fun _ hb => ?_,
            fun h => ?_⟩
    · simp only [update, hst]
      exact updateEnd_bank s es i hb
    · exfalso
      rcases h with h | h
      · simp [splitFires, hst] at h
      · simp [ddFires, hst] at h
  | Playing ps =>
    have hbank : (update s i).2.player_bank = s.player_bank := by
      simp only [update, hst]
      exact updatePlaying_bank s ps i
    refine ⟨fun _ => hbank,
            fun h => by simp [isDealing] at h,
            fun h => by simp [isDealerResolving] at h,
            fun h => by simp [isBetting] at h,
            fun h => by simp [isInsurance] at h,
            fun h => by simp [isEnd] at h,
            fun h => ⟨hbank, fun hsm => ?_⟩⟩
    have hw : (update s i).2.total_bet = wadd s.total_bet s.player_bet := by
      simp only [update, hst]
      rcases h with h | h
      · simp only [splitFires, hst, Bool.and_eq_true, decide_eq_true_eq,
          beq_iff_eq] at h
        exact updatePlaying_wager s ps i h.1.1.1.2 h.1.1.1.1 h.2
          (Or.inl ⟨h.1.1.2, h.1.2⟩)
      · simp only [ddFires, hst, Bool.and_eq_true, decide_eq_true_eq,
          beq_iff_eq] at h
        exact updatePlaying_wager s ps i h.1.1.1.2 h.1.1.1.1 h.2
          (Or.inr ⟨h.1.1.2, h.1.2⟩)
    rw [hw, wadd, U32]
    exact Nat.mod_eq_of_lt hsm

/-- Witness for C10 at a concrete Playing state: a no-input tick and a
confirmed split both leave the bank unchanged, and the split adds the bet
to the total wager. -/
theorem c10_witness :
    (update splitAgainState noInput).2.player_bank = splitAgainState.player_bank
  ∧ (update splitAgainState tapX).2.total_bet =
      splitAgainState.total_bet + splitAgainState.player_bet
  ∧ (update splitAgainState tapX).2.player_bank = splitAgainState.player_bank := by
  have h := (c10_bank_frame splitAgainState tapX).2.2.2.2.2.2 (Or.inl (by decide))
  exact ⟨(c10_bank_frame splitAgainState noInput).1 (by decide),
         h.2 (by decide), h.1⟩

/-! ### Claim C5: claimed saturating arithmetic; insurance underflow -/

/-- C5 evaluation at the failing input: in the Insurance phase with bank 0
and pending bet 10 (reachable by confirming a minimum bet equal to the
whole bank and being dealt a dealer Ace up-card), accepting insurance
computes `0 - 5` with an unchecked `u32` subtraction, wrapping to
`2^32 - 5` instead of saturating at 0. -/
theorem c5_insurance_underflow :
    insPoorState.player_bank = 0 ∧ insPoorState.player_bet = 10
  ∧ (update insPoorState tapX).2.player_bank = 4294967291
  ∧ (update insPoorState tapX).2.player_bank ≠ 0 := by
  decide

/-! ### Claim C6: Betting-phase bet invariant -/

theorem updateBetting_bet (s : BlackJack) (i : Inputs)
    (hz : i.tap_z = false) (hmin : ¬(s.player_bank < MINIMUM_BET)) :
    (updateBetting s i).2.player_bet =
      min (max (if i.tap_up then satAdd s.player_bet BET_INCREMENT
                else if i.tap_down then s.player_bet - BET_INCREMENT
                else s.player_bet) MINIMUM_BET) s.player_bank := by
  simp only [updateBetting, hz, hmin]
  split_ifs <;> simp_all

/-- Counterexample to C6 as stated: with a 15-chip bankroll freshly carried
in by the shell, two bet-increase taps clamp the bet to the bank and leave
it at 15, which is not a multiple of `BET_INCREMENT`. -/
theorem c6_counterexample :
    bank15State.state = BlackJackState.Betting
  ∧ MINIMUM_BET ≤ bank15State.player_bank
  ∧ (update (update bank15State tapUp).2 tapUp).2.state = BlackJackState.Betting
  ∧ (update (update bank15State tapUp).2 tapUp).2.player_bet = 15
  ∧ ¬ BET_INCREMENT ∣ (update (update bank15State tapUp).2 tapUp).2.player_bet := by
  decide

/-- C6 (amended): in the Betting phase with bank at least `MINIMUM_BET`,
any non-exit update leaves `player_bet` in `[MINIMUM_BET, player_bank]`;
the bet is moreover a multiple of `BET_INCREMENT` provided the incoming
bet and the bank are both multiples — clamping to a bank that is not a
multiple of the increment can otherwise leave a non-multiple bet. -/
theorem c6_amended (s : BlackJack) (i : Inputs)
    (hst : s.state = BlackJackState.Betting)
    (hmin : MINIMUM_BET ≤ s.player_bank)
    (hz : i.tap_z = false)
    (hbank : s.player_bank < U32) :
    (MINIMUM_BET ≤ (update s i).2.player_bet
      ∧ (update s i).2.player_bet ≤ s.player_bank)
  ∧ (BET_INCREMENT ∣ s.player_bet → BET_INCREMENT ∣ s.player_bank →
      BET_INCREMENT ∣ (update s i).2.player_bet) := by
  have hmin' : ¬(s.player_bank < MINIMUM_BET) := by omega
  simp only [update, hst]
  rw [updateBetting_bet s i hz hmin']
  simp only [MINIMUM_BET, BET_INCREMENT, satAdd, U32] at hmin hbank ⊢
  constructor
  · constructor <;> (split_ifs <;> omega)
  · intro hd1 hd2
    split_ifs <;> omega

/-- Witness for the amended C6: with bank 15 a bet-increase tap yields a
bet inside `[MINIMUM_BET, player_bank]`. -/
theorem c6_witness :
    MINIMUM_BET ≤ (update bank15State tapUp).2.player_bet
  ∧ (update bank15State tapUp).2.player_bet ≤ bank15State.player_bank :=
  (c6_amended bank15State tapUp rfl (by decide) rfl (by decide)).1

/-! ### Claim C1: End-phase settlement -/

/-- Counterexample to C1 as stated: in an End state with a dealer blackjack
and no insurance (reachable by declining insurance while holding a player
blackjack), the per-hand payouts of the claim's else-branch are NOT paid:
the bank stays at 100 although the claim's reading pays the BlackJack-tier
22 on the bet of 10. -/
theorem c1_counterexample :
    endDealerBJState.player_bet = 10
  ∧ is_blackjack dBJhand = true
  ∧ endDealerBJState.player_bank = 100
  ∧ endDealerBJState.player_bank
      + (([(pBJhand, HandResult.BlackJack)].map
            (fun pr => specPayout 10 pr.2)).sum) = 122
  ∧ (update endDealerBJState noInput).2.player_bank = 100
  ∧ (update endDealerBJState noInput).2.player_bank ≠ 122 := by
  decide

theorem endPayout_eq_spec (bet : Nat) (r : HandResult) (hb : bet * 6 < U32) :
    endPayout bet r = specPayout bet r := by
  have hb' : bet * 6 < 4294967296 := hb
  have h2 : bet * 2 < 4294967296 := by omega
  have h3 : bet * 6 % 4294967296 = bet * 6 := Nat.mod_eq_of_lt hb'
  have h2' : bet * 2 % 4294967296 = bet * 2 := Nat.mod_eq_of_lt h2
  have h4 : bet * 6 / 5 + bet < 4294967296 := by omega
  cases r <;> simp only [endPayout, specPayout, wadd, wmul, U32, h3, h2'] <;> omega

theorem foldl_wadd_payouts (bet : Nat) (hb : bet * 6 < U32) :
    ∀ (l : List (Hand × HandResult)) (b : Nat),
      b + (l.map (fun pr => specPayout bet pr.2)).sum < U32 →
      l.foldl (fun acc pr => wadd acc (endPayout bet pr.2)) b
        = b + (l.map (fun pr => specPayout bet pr.2)).sum := by
  intro l
  induction l with
  | nil =>
    intro b _
    simp
  | cons x xs ih =>
    intro b hs
    simp only [List.map_cons, List.sum_cons] at hs
    have hx : endPayout bet x.2 = specPayout bet x.2 := endPayout_eq_spec bet x.2 hb
    have hb1 : b + specPayout bet x.2 < U32 := by
      have hnn : 0 ≤ (xs.map (fun pr => specPayout bet pr.2)).sum := Nat.zero_le _
      have hs' : b + (specPayout bet x.2
        + (xs.map (fun pr => specPayout bet pr.2)).sum) < U32 := hs
      omega
    have h1 : wadd b (endPayout bet x.2) = b + specPayout bet x.2 := by
      rw [hx, wadd]
      exact Nat.mod_eq_of_lt hb1
    simp only [List.foldl_cons, h1]
    rw [ih (b + specPayout bet x.2) (by omega)]
    simp only [List.map_cons, List.sum_cons]
    omega

theorem updateEnd_snd_fields (s : BlackJack) (es : EndState) (i : Inputs)
    (hbet : s.player_bet ≠ 0) :
    (updateEnd s es i).2.player_bank =
      (if is_blackjack es.dealer_hand then
         (if es.bought_insurance then wadd s.player_bank (wmul s.player_bet 3 / 2)
          else s.player_bank)
       else es.player_hands.foldl
              (fun b pr => wadd b (endPayout s.player_bet pr.2)) s.player_bank)
  ∧ (updateEnd s es i).2.player_bet = 0
  ∧ (updateEnd s es i).2.total_bet = 0 := by
  simp only [updateEnd]
  rw [if_pos hbet]
  split_ifs <;> simp_all

/-- C1 (amended): on the settlement tick in the End phase (pending bet
non-zero, amounts small enough that no `u32` wrap occurs), if the dealer
hand is a blackjack the bank increases by `player_bet*3/2` exactly when
insurance was purchased and the per-hand outcomes are ignored; only when
the dealer hand is not a blackjack does every player hand pay
`player_bet*6/5 + player_bet` for BlackJack, `player_bet` for Push,
`2*player_bet` for Win and nothing for Lose; afterwards `player_bet` and
`total_bet` are reset to 0. -/
theorem c1_amended (s : BlackJack) (es : EndState) (i : Inputs)
    (hst : s.state = BlackJackState.End es)
    (hbet : s.player_bet ≠ 0)
    (h6 : s.player_bet * 6 < U32)
    (hins : s.player_bank + s.player_bet * 3 / 2 < U32)
    (hpay : s.player_bank +
        (es.player_hands.map (fun pr => specPayout s.player_bet pr.2)).sum < U32) :
    (is_blackjack es.dealer_hand = true →
       (update s i).2.player_bank =
         (if es.bought_insurance then s.player_bank + s.player_bet * 3 / 2
          else s.player_bank))
  ∧ (is_blackjack es.dealer_hand = false →
       (update s i).2.player_bank =
         s.player_bank +
           (es.player_hands.map (fun pr => specPayout s.player_bet pr.2)).sum)
  ∧ (update s i).2.player_bet = 0
  ∧ (update s i).2.total_bet = 0 := by
  obtain ⟨hf1, hf2, hf3⟩ := updateEnd_snd_fields s es i hbet
  simp only [update, hst]
  refine ⟨?_, ?_, hf2, hf3⟩
  · intro hdb
    rw [hf1, if_pos hdb]
    clear hf1 hf2 hf3 hpay hst
    have h6' : s.player_bet * 6 < 4294967296 := h6
    have hins' : s.player_bank + s.player_bet * 3 / 2 < 4294967296 := hins
    have h3 : s.player_bet * 3 < 4294967296 := by omega
    have h3' : s.player_bet * 3 % 4294967296 = s.player_bet * 3 :=
      Nat.mod_eq_of_lt h3
    cases hbi : es.bought_insurance with
    | false => simp
    | true =>
      simp only [wadd, wmul, U32, h3']
      simp
      omega
  · intro hdb
    rw [hf1, if_neg (by simp [hdb])]
    exact foldl_wadd_payouts s.player_bet h6 es.player_hands s.player_bank hpay

/-- Witness for the amended C1 at the spec's payout scenario: player
blackjack against a dealer 19, bet 10, bank 90 settles to 112 and clears
the pending bets. -/
theorem c1_witness :
    (update endNoBJState noInput).2.player_bank = 112
  ∧ (update endNoBJState noInput).2.player_bet = 0
  ∧ (update endNoBJState noInput).2.total_bet = 0 := by
  obtain ⟨hbj, hnobj, hbet0, htot0⟩ :=
    c1_amended endNoBJState ⟨d19hand, [(pBJhand, HandResult.BlackJack)], false⟩
      noInput rfl (by decide) (by decide) (by decide) (by decide)
  refine ⟨?_, hbet0, htot0⟩
  rw [hnobj (by decide)]
  decide

/-! ### Claim C8: split semantics -/

/-- Counterexample to C8 as stated: confirming a second split (total_bet
already 2 bets) adds `player_bet` to `total_bet` rather than doubling it:
20 becomes 30, not 40. -/
theorem c8_counterexample :
    splitFires splitAgainState tapX = true
  ∧ splitAgainState.total_bet = 20
  ∧ (update splitAgainState tapX).2.total_bet = 30
  ∧ (update splitAgainState tapX).2.total_bet ≠ 2 * splitAgainState.total_bet := by
  decide

/-- C8 (amended): confirming an enabled split moves the active hand's
second card to a new hand, draws one fresh card from the shoe into each of
the two resulting hands (both end with exactly 2 cards, the active hand
receiving the first draw), appends the new hand to the hand list, leaves
the active index and the bank unchanged, and adds `player_bet` to
`total_bet` (doubling it only when `total_bet` previously equalled
`player_bet`). -/
theorem c8_amended (s : BlackJack) (ps : PlayingState) (i : Inputs)
    (c0 c1 f1 f2 : Card) (rest : List Card)
    (hst : s.state = BlackJackState.Playing ps)
    (hidx : ps.player_hand_index < ps.player_hands.length)
    (hx : i.tap_x = true)
    (hbi : ps.button_index = 2)
    (hhand : (ps.player_hands.getD ps.player_hand_index default).cards = [c0, c1])
    (hsplit : can_split (ps.player_hands.getD ps.player_hand_index default) = true)
    (hbb : s.player_bet ≤ s.player_bank)
    (hbj : is_blackjack (ps.player_hands.getD ps.player_hand_index default) = false)
    (hbust : is_bust (ps.player_hands.getD ps.player_hand_index default) = false)
    (hhorn : s.horn = rest ++ [f2, f1])
    (hsm : s.total_bet + s.player_bet < U32) :
    ∃ ps' : PlayingState,
      (update s i).2.state = BlackJackState.Playing ps'
      ∧ ps'.player_hands =
          (ps.player_hands.set ps.player_hand_index ⟨[c0, f1]⟩) ++ [⟨[c1, f2]⟩]
      ∧ ps'.player_hand_index = ps.player_hand_index
      ∧ (∀ h ∈ [Hand.mk [c0, f1], Hand.mk [c1, f2]], h.cards.length = 2)
      ∧ (update s i).2.total_bet = s.total_bet + s.player_bet
      ∧ (update s i).2.player_bank = s.player_bank
      ∧ (update s i).2.horn = rest := by
  have hno : ¬(ps.player_hands.length ≤ ps.player_hand_index) := by omega
  have hd1 : draw_card s.horn s.rng s.rpos = (f1, rest ++ [f2], s.rpos) := by
    rw [hhorn, show rest ++ [f2, f1] = (rest ++ [f2]) ++ [f1] by simp]
    simp [draw_card]
  have hd2 : draw_card (rest ++ [f2]) s.rng s.rpos = (f2, rest, s.rpos) := by
    simp [draw_card]
  have hw : wadd s.total_bet s.player_bet = s.total_bet + s.player_bet := by
    rw [wadd]
    exact Nat.mod_eq_of_lt hsm
  simp only [List.getD_eq_getElem?_getD] at hhand hsplit hbj hbust
  have hupd : (update s i).2 = { s with
      horn := rest,
      total_bet := wadd s.total_bet s.player_bet,
      state := BlackJackState.Playing
        { ps with
            split_button := { ps.split_button with disabled := false },
            double_down_button := { ps.double_down_button with disabled :=
              !(can_double_down (ps.player_hands.getD ps.player_hand_index default)
                && decide (s.player_bet ≤ s.player_bank)) },
            player_hands :=
              (ps.player_hands.set ps.player_hand_index ⟨[c0, f1]⟩) ++ [⟨[c1, f2]⟩] } } := by
    simp only [update, hst, updatePlaying, List.getD_eq_getElem?_getD]
    simp [hno, hx, hbi, hhand, hsplit, hbj, hbust, hbb, hd1, hd2]
  rw [hupd]
  clear hupd hd1 hd2
  refine ⟨_, rfl, rfl, rfl, ?_, hw, rfl, rfl⟩
  intro h hm
  simp only [List.mem_cons, List.mem_singleton, List.not_mem_nil, or_false] at hm
  rcases hm with rfl | rfl <;> rfl

/-- Witness for the amended C8 at the concrete Playing state
`splitAgainState` with its three-card shoe. -/
theorem c8_witness :
    (update splitAgainState tapX).2.player_bank = splitAgainState.player_bank
  ∧ (update splitAgainState tapX).2.horn = [⟨CardValue.Two, CardSuit.Club⟩]
  ∧ (update splitAgainState tapX).2.total_bet =
      splitAgainState.total_bet + splitAgainState.player_bet := by
  obtain ⟨ps', hstate, hhands, hidx, hlens, htot, hbank, hhorn⟩ :=
    c8_amended splitAgainState splitAgainPS tapX
      ⟨CardValue.Eight, CardSuit.Spade⟩ ⟨CardValue.Eight, CardSuit.Heart⟩
      ⟨CardValue.Four, CardSuit.Club⟩ ⟨CardValue.Three, CardSuit.Club⟩
      [⟨CardValue.Two, CardSuit.Club⟩]
      rfl (by decide) rfl rfl (by decide) (by decide) (by decide) (by decide)
      (by decide) (by decide) (by decide)
  exact ⟨hbank, hhorn, htot⟩

end BJ
